import Mathlib

/-!
Verification of the chain graph engine (`src/chain/function.py`): a shallow
embedding of the define-by-run computational-graph machinery — `Function`
nodes, the implicit `Split` branch nodes, `ParameterizedFunction`, backend
dispatch and the `forget` teardown — together with proofs of the specified
properties.
-/

namespace Chain

/-- Raw tensor values, opaque to the engine except for their placement:
`host` models a `numpy.ndarray`, `dev` models a `pycuda GPUArray`.
The `Int` payload stands for the (irrelevant) numeric contents. -/
inductive Raw where
  | host (v : Int)
  | dev (v : Int)
deriving DecidableEq, Inhabited

/-- Whether a raw value resides on the accelerator (is a `GPUArray`). -/
def Raw.isDev : Raw → Bool
  | .host _ => false
  | .dev _ => true

/-- `_is_gpu_input(inputs)`: `any(type(x) == GPUArray for x in inputs)`. -/
def is_gpu_input (inputs : List Raw) : Bool :=
  inputs.any Raw.isDev

/-- Error kinds raised by the engine: `NotImplementedError` from the abstract
forward contracts, `ValueError` from `max()` on an empty sequence, and
`RuntimeError` from the base parameter/gradient setters. -/
inductive Err where
  | notImplemented
  | valueError
  | runtimeError
deriving DecidableEq, Inhabited

/-! ## Gradient objects and `Split.backward`

Gradients flowing through `Split.backward` are array objects with identity:
`gy.copy()` allocates a fresh object, `gx += gy` mutates in place (keeping
`gx`'s identity).  We model an array object as an identity tag `oid` plus its
numeric content `val`; a single counter `fresh` supplies the identity of the
one copy the code can allocate. -/

structure GradObj where
  oid : Nat
  val : Int
deriving DecidableEq, Inhabited

/-- One iteration of the accumulation loop in `Split.backward`
(`src/chain/function.py` lines 128–138), for a tuple of length `n`:
skip `None`; on the first present gradient either reuse it (`gx = gy`, only
when `n == 1`) or copy it (`gx = gy.copy()`); afterwards add in place
(`gx += gy`). -/
def splitStep (n : Nat) (fresh : Nat) (gx : Option GradObj) (gy : Option GradObj) :
    Option GradObj :=
  match gy with
  | none => gx
  | some g =>
    match gx with
    | none => if n = 1 then some g else some { oid := fresh, val := g.val }
    | some a => some { a with val := a.val + g.val }

/-- `Split.backward(self, inputs, grad_outputs)`: folds the accumulation loop
over the per-branch gradients and returns the one-element tuple `(gx,)`. -/
def Split.backward (fresh : Nat) (grad_outputs : List (Option GradObj)) :
    List (Option GradObj) :=
  [grad_outputs.foldl (splitStep grad_outputs.length fresh) none]

/-- The numeric values of the present (non-`None`) branch gradients. -/
def presentVals (grad_outputs : List (Option GradObj)) : List Int :=
  (grad_outputs.filterMap id).map GradObj.val

/-! ## The graph state

The Python code mutates `Variable` and `Function` objects in place; we model
the object heap explicitly.  `Nat` indices into the three stores play the
role of object identity: `raws` holds raw tensor objects, `vars` holds
`Variable` (DataNode) objects and `funcs` holds `Function` objects
(operation nodes and `Split` branch nodes alike). -/

/-- Modelled from the spec: the `Variable` class lives in `variable.py`,
which is not under `src/`.  Per the spec's DataNode model, a variable holds
a raw value, a *rank* (the producer's rank, or `0` for leaves), a nullable
producing operation (`creator`) and a lazily attached branch link
(`splitter`). -/
structure VarNode where
  data : Nat
  rank : Nat
  creator : Option Nat
  splitter : Option Nat
deriving DecidableEq, Inhabited

/-- One `Function` object in the heap: `inputs`, `outputs` and `rank` start
as `None` (`Function.__init__`) and are filled in by `__call__`;
`pf` carries the shallow-copied parameterized state for
`ParameterizedFunction` call copies (`none` for base operations and splits). -/
structure ParamFn where
  parameter_names : List Nat
  gradient_names : List Nat
  fields : List (Nat × Nat)
deriving DecidableEq, Inhabited

structure FuncNode where
  inputs : Option (List Nat)
  outputs : Option (List Nat)
  rank : Option Nat
  pf : Option ParamFn
deriving DecidableEq, Inhabited

structure St where
  raws : List Raw
  vars : List VarNode
  funcs : List FuncNode
deriving DecidableEq, Inhabited

def St.var (st : St) (i : Nat) : VarNode := st.vars.getD i default

def St.fn (st : St) (i : Nat) : FuncNode := st.funcs.getD i default

def St.raw (st : St) (i : Nat) : Raw := st.raws.getD i default

def St.setVar (st : St) (i : Nat) (v : VarNode) : St :=
  { st with vars := st.vars.set i v }

def St.setFn (st : St) (i : Nat) (f : FuncNode) : St :=
  { st with funcs := st.funcs.set i f }

/-- Modelled from the spec: creating a leaf `Variable` (DataNode) wrapping a
fresh raw value — rank `0`, no producer, no branch link. -/
def mkLeaf (st : St) (v : Raw) : St × Nat :=
  ({ st with
      raws := st.raws ++ [v],
      vars := st.vars ++ [{ data := st.raws.length, rank := 0, creator := none,
                            splitter := none }] },
   st.vars.length)

/-- `Split.__init__(self, var)`: `inputs = [var]`, `outputs = []`,
`rank = var.rank`.  Allocates the new `Split` object and returns its id. -/
def Split.init (st : St) (vid : Nat) : St × Nat :=
  ({ st with
      funcs := st.funcs ++ [{ inputs := some [vid], outputs := some [],
                              rank := some (st.var vid).rank, pf := none }] },
   st.funcs.length)

/-- `Split.add_branch(self)`: wrap the split input's raw value in a fresh
`Variable` sharing the same raw object (`Variable(x.data)`), record this
split as its creator (modelled from the spec: `set_creator` assigns the
producer and gives the variable the producer's rank), and append it to
`self.outputs`. -/
def Split.add_branch (st : St) (sid : Nat) : St × Nat :=
  let f := st.fn sid
  let x := st.var ((f.inputs.getD []).headD 0)
  let out : VarNode :=
    { data := x.data, rank := f.rank.getD 0, creator := some sid, splitter := none }
  let outId := st.vars.length
  let st1 : St := { st with vars := st.vars ++ [out] }
  (st1.setFn sid { f with outputs := some ((f.outputs.getD []) ++ [outId]) }, outId)

/-- One iteration of the branch-resolution loop in `Function.__call__`
(lines 28–31): create the input's `Split` lazily if absent, then derive a
branch variable for this consumption. -/
def resolveOne (st : St) (x : Nat) : St × Nat :=
  match (st.var x).splitter with
  | some sid => Split.add_branch st sid
  | none =>
    let p := Split.init st x
    let st2 := p.1.setVar x { p.1.var x with splitter := some p.2 }
    Split.add_branch st2 p.2

/-- The whole branch-resolution loop: `self.inputs[i] = x.splitter.add_branch()`
for each positional input, in order. -/
def resolveInputs (st : St) : List Nat → St × List Nat
  | [] => (st, [])
  | x :: xs =>
    let p := resolveOne st x
    let q := resolveInputs p.1 xs
    (q.1, p.2 :: q.2)

/-- A concrete operation's backend kernels: `forward_cpu`/`forward_gpu`
return raw outputs or raise, `backward_cpu`/`backward_gpu` return one
(optional) gradient per input. -/
structure Impl where
  fwd_cpu : List Raw → Except Err (List Raw)
  fwd_gpu : List Raw → Except Err (List Raw)
  bwd_cpu : List Raw → List (Option Raw) → List (Option Raw)
  bwd_gpu : List Raw → List (Option Raw) → List (Option Raw)

/-- The abstract base contracts: `forward_cpu`/`forward_gpu` raise
`NotImplementedError`; `backward_cpu`/`backward_gpu` return a tuple of
`None`, one per input. -/
def defaultImpl : Impl :=
  { fwd_cpu := fun _ => .error .notImplemented,
    fwd_gpu := fun _ => .error .notImplemented,
    bwd_cpu := fun inputs _ => inputs.map (fun _ => none),
    bwd_gpu := fun inputs _ => inputs.map (fun _ => none) }

/-- A minimal concrete operation used to exercise the engine: its forward
kernels return the raw inputs unchanged on either backend, and backward is
left at the inert default. -/
def idImpl : Impl :=
  { fwd_cpu := fun xs => .ok xs,
    fwd_gpu := fun xs => .ok xs,
    bwd_cpu := fun inputs _ => inputs.map (fun _ => none),
    bwd_gpu := fun inputs _ => inputs.map (fun _ => none) }

/-- `Function.forward(self, inputs)`: dispatch to the GPU kernel iff some
input is a `GPUArray`, else the CPU kernel. -/
def Function.forward (impl : Impl) (inputs : List Raw) : Except Err (List Raw) :=
  if is_gpu_input inputs then impl.fwd_gpu inputs else impl.fwd_cpu inputs

/-- `Function.backward(self, inputs, grad_outputs)`: the same dispatch,
decided from this call's own `inputs`. -/
def Function.backward (impl : Impl) (inputs : List Raw)
    (grad_outputs : List (Option Raw)) : List (Option Raw) :=
  if is_gpu_input inputs then impl.bwd_gpu inputs grad_outputs
  else impl.bwd_cpu inputs grad_outputs

/-- Python's `max(seq)`: the maximum of a nonempty list
(`max()` on an empty sequence raises `ValueError`; callers handle that case). -/
def pyMax : List Nat → Nat
  | [] => 0
  | r :: rs => rs.foldl max r

/-- The first statement of `Function.__call__`: the call's function object
with `self.inputs = list(inputs)` recorded (outputs and rank still `None`). -/
def callStart (pf : Option ParamFn) (st : St) (xs : List Nat) : St :=
  { st with funcs := st.funcs ++ [{ inputs := some xs, outputs := none,
                                    rank := none, pf := pf }] }

/-- The output-wrapping tail of `Function.__call__`: on a raised forward, the
error propagates with the heap as already mutated; on success each raw
result is wrapped in a fresh output `Variable` whose creator is the node
(modelled from the spec: `set_creator` gives it the producer's rank), and
`self.outputs` records them. -/
def callFinish (fid rank : Nat) (st4 : St) (res : Except Err (List Raw)) :
    St × Except Err (Nat × List Nat) :=
  match res with
  | .error e => (st4, .error e)
  | .ok outs =>
    let st5 : St :=
      { st4 with
          raws := st4.raws ++ outs,
          vars := st4.vars ++
            (List.range outs.length).map (fun j =>
              { data := st4.raws.length + j, rank := rank, creator := some fid,
                splitter := none }) }
    let outIds := (List.range outs.length).map (fun j => st4.vars.length + j)
    (st5.setFn fid { st5.fn fid with outputs := some outIds },
     .ok (fid, outIds))

/-- `Function.__call__(self, *inputs)`: allocate the call's function object,
branch-resolve the inputs, compute `rank = max(x.rank for x in self.inputs)`
(`max()` raises `ValueError` exactly when the input tuple is empty, since
branch resolution preserves the tuple's length), run the dispatched forward
on the raw input data, then wrap each raw result in a fresh output
`Variable` whose creator is this node.  Returns the mutated heap together
with either the error raised or `(function id, output variable ids)`;
mutations made before a raise persist, as in Python. -/
def Function.call (impl : Impl) (pf : Option ParamFn) (st0 : St)
    (inputIds : List Nat) : St × Except Err (Nat × List Nat) :=
  let fid := st0.funcs.length
  let st1 := callStart pf st0 inputIds
  let p := resolveInputs st1 inputIds
  let st3 := p.1.setFn fid { p.1.fn fid with inputs := some p.2 }
  match inputIds with
  | [] => (st3, .error .valueError)
  | _ :: _ =>
    let rank := pyMax (p.2.map (fun i => (st3.var i).rank))
    let st4 := st3.setFn fid { st3.fn fid with rank := some rank }
    callFinish fid rank st4
      (Function.forward impl (p.2.map (fun i => st4.raw (st4.var i).data)))

/-- `Function.forget(self)`: clear `creator` on every output variable and
`splitter` on every input variable, then drop the node's own input/output
references (`self.outputs = None; self.inputs = None`). -/
def Function.forget (st : St) (fid : Nat) : St :=
  let n := st.fn fid
  let st1 := (n.outputs.getD []).foldl
    (fun st y => st.setVar y { st.var y with creator := none }) st
  let st2 := (n.inputs.getD []).foldl
    (fun st x => st.setVar x { st.var x with splitter := none }) st1
  st2.setFn fid { st2.fn fid with inputs := none, outputs := none }

/-- `getattr(self, name)` on the modelled attribute table (attribute values
are reference ids into shared storage). -/
def getattrRef (f : ParamFn) (n : Nat) : Nat :=
  (f.fields.lookup n).getD 0

/-- `ParameterizedFunction.parameters` getter:
`tuple(getattr(self, name) for name in self.parameter_names)`. -/
def ParamFn.parameters (f : ParamFn) : List Nat :=
  f.parameter_names.map (getattrRef f)

/-- `ParameterizedFunction.gradients` getter. -/
def ParamFn.gradients (f : ParamFn) : List Nat :=
  f.gradient_names.map (getattrRef f)

/-- The `parameters` property read off a graph node: the base
`Function.parameters` getter returns `()`; a `ParameterizedFunction` call
copy returns its declared fields. -/
def FuncNode.parameters (n : FuncNode) : List Nat :=
  match n.pf with
  | none => []
  | some f => f.parameters

/-- The `gradients` property read off a graph node. -/
def FuncNode.gradients (n : FuncNode) : List Nat :=
  match n.pf with
  | none => []
  | some f => f.gradients

/-- The base `Function.parameters` setter: accepts only the empty tuple and
does nothing; any other value raises `RuntimeError('Cannot set parameters')`. -/
def Function.parameters_set (values : List Nat) : Except Err Unit :=
  if values = [] then .ok () else .error .runtimeError

/-- The base `Function.gradients` setter, identical policy. -/
def Function.gradients_set (values : List Nat) : Except Err Unit :=
  if values = [] then .ok () else .error .runtimeError

/-- `copy.copy(self)` on a `ParameterizedFunction`: a shallow copy — the
attribute table is duplicated but every attribute still refers to the same
underlying parameter/gradient objects (the same reference ids). -/
def copyShallow (f : ParamFn) : ParamFn :=
  { parameter_names := f.parameter_names, gradient_names := f.gradient_names,
    fields := f.fields }

/-- `ParameterizedFunction.__call__(self, *inputs)`:
`cp = copy.copy(self); return Function.__call__(cp, *inputs)` — the base
invoke logic runs on the fresh shallow copy, which becomes the graph node. -/
def ParameterizedFunction.call (impl : Impl) (f : ParamFn) (st : St)
    (inputIds : List Nat) : St × Except Err (Nat × List Nat) :=
  Function.call impl (some (copyShallow f)) st inputIds

/-- Modelled from the spec: the graph driver's gradient-accumulation step
(not under `src/`) — assign the incoming gradient if the slot is empty, add
if already populated, and a `None` gradient contributes nothing. -/
def accumGrad (slot : Option Int) (g : Option Int) : Option Int :=
  match g with
  | none => slot
  | some gv =>
    match slot with
    | none => some gv
    | some s => some (s + gv)

/-! ## Well-formedness of a graph state

Object-reference fields only ever point at objects that exist in the heap:
this holds for every state reachable through the API and is preserved by
every operation. -/

/-- Every branch link points at an allocated function object. -/
def SpB (st : St) : Prop :=
  ∀ v s, (st.var v).splitter = some s → s < st.funcs.length

/-- Every producer link points at an allocated function object. -/
def CrB (st : St) : Prop :=
  ∀ v s, (st.var v).creator = some s → s < st.funcs.length

def WF (st : St) : Prop := SpB st ∧ CrB st

/-- No branch link points at `g`. -/
def SplitAvoid (g : Nat) (st : St) : Prop :=
  ∀ v, (st.var v).splitter ≠ some g

/-- No producer link points at `g`. -/
def CreatorAvoid (g : Nat) (st : St) : Prop :=
  ∀ v, (st.var v).creator ≠ some g

/-- The intermediate state of the `splitter`-absent branch of `resolveOne`:
the fresh `Split` appended and `x.splitter` pointed at it. -/
def splitFresh (st : St) (x : Nat) : St :=
  ⟨st.raws,
   st.vars.set x { st.var x with splitter := some st.funcs.length },
   st.funcs ++ [⟨some [x], some [], some (st.var x).rank, none⟩]⟩

/-! ## Infrastructure lemmas -/

lemma splitStep_some (n fresh : Nat) :
    ∀ (xs : List (Option GradObj)) (a : GradObj),
      xs.foldl (splitStep n fresh) (some a) =
        some ⟨a.oid, a.val + (presentVals xs).sum⟩ := by
  intro xs
  induction xs with
  | nil => intro a; simp [presentVals]
  | cons x xs ih =>
    intro a
    cases x with
    | none =>
      simp only [List.foldl_cons, splitStep, presentVals, List.filterMap_cons_none]
      exact ih a
    | some g =>
      simp only [List.foldl_cons, splitStep, presentVals, List.filterMap_cons_some,
        List.map_cons, List.sum_cons]
      rw [ih ⟨a.oid, a.val + g.val⟩]
      simp [presentVals, add_assoc]

lemma splitFold_none (n fresh : Nat) :
    ∀ (xs : List (Option GradObj)),
      xs.foldl (splitStep n fresh) none =
        match (xs.filterMap id) with
        | [] => none
        | g :: _ =>
          if n = 1 then some ⟨g.oid, (presentVals xs).sum⟩
          else some ⟨fresh, (presentVals xs).sum⟩ := by
  intro xs
  induction xs with
  | nil => simp
  | cons x xs ih =>
    cases x with
    | none =>
      simpa only [List.foldl_cons, splitStep, List.filterMap_cons_none] using ih
    | some g =>
      have hstep : splitStep n fresh none (some g) =
          if n = 1 then some g else some ⟨fresh, g.val⟩ := by
        simp [splitStep]
      simp only [List.foldl_cons, List.filterMap_cons_some, hstep]
      by_cases hn : n = 1
      · rw [if_pos hn, splitStep_some]
        simp [presentVals, hn]
      · rw [if_neg hn, splitStep_some]
        simp [presentVals, hn]


lemma getD_append_self {α : Type} (l : List α) (a d : α) :
    (l ++ [a]).getD l.length d = a := by
  rw [List.getD_append_right _ _ _ _ (le_refl _)]
  simp

lemma var_default (st : St) (v : Nat) (h : st.vars.length ≤ v) :
    st.var v = default := List.getD_eq_default _ _ h

lemma fn_default (st : St) (g : Nat) (h : st.funcs.length ≤ g) :
    st.fn g = default := List.getD_eq_default _ _ h

lemma getD_mem' {α : Type} (l : List α) (n : Nat) (d : α) (h : n < l.length) :
    l.getD n d ∈ l := by
  rw [List.getD_eq_getElem l d h]
  exact List.getElem_mem h

lemma wf_of_no_links (st : St)
    (h : ∀ v ∈ st.vars, v.creator = none ∧ v.splitter = none) : WF st := by
  constructor
  · intro v s hs
    rcases Nat.lt_or_ge v st.vars.length with hv | hv
    · have hn : (st.var v).splitter = none := (h _ (getD_mem' st.vars v default hv)).2
      rw [hn] at hs; exact Option.noConfusion hs
    · rw [var_default st v hv] at hs; exact Option.noConfusion hs
  · intro v s hs
    rcases Nat.lt_or_ge v st.vars.length with hv | hv
    · have hn : (st.var v).creator = none := (h _ (getD_mem' st.vars v default hv)).1
      rw [hn] at hs; exact Option.noConfusion hs
    · rw [var_default st v hv] at hs; exact Option.noConfusion hs

lemma splitAvoid_of_spb (st : St) (g : Nat) (hg : st.funcs.length ≤ g)
    (h : SpB st) : SplitAvoid g st := by
  intro v hv
  exact absurd (h v g hv) (by omega)

lemma creatorAvoid_of_crb (st : St) (g : Nat) (hg : st.funcs.length ≤ g)
    (h : CrB st) : CreatorAvoid g st := by
  intro v hv
  exact absurd (h v g hv) (by omega)

/-- The state and return value of `Split.add_branch`, fully unfolded. -/
lemma add_branch_eq (st : St) (sid : Nat) :
    Split.add_branch st sid =
      (⟨st.raws,
        st.vars ++ [⟨(st.var (((st.fn sid).inputs.getD []).headD 0)).data,
                     (st.fn sid).rank.getD 0, some sid, none⟩],
        st.funcs.set sid { st.fn sid with
          outputs := some (((st.fn sid).outputs.getD []) ++ [st.vars.length]) }⟩,
       st.vars.length) := rfl

/-- The state and return value of `Split.init`, fully unfolded. -/
lemma split_init_eq (st : St) (vid : Nat) :
    Split.init st vid =
      (⟨st.raws, st.vars,
        st.funcs ++ [⟨some [vid], some [], some (st.var vid).rank, none⟩]⟩,
       st.funcs.length) := rfl

lemma resolveOne_eq_some (st : St) (x sid : Nat)
    (h : (st.var x).splitter = some sid) :
    resolveOne st x = Split.add_branch st sid := by
  unfold resolveOne
  rw [h]

lemma resolveOne_eq_none (st : St) (x : Nat)
    (h : (st.var x).splitter = none) :
    resolveOne st x =
      Split.add_branch
        ⟨st.raws,
         st.vars.set x { st.var x with splitter := some st.funcs.length },
         st.funcs ++ [⟨some [x], some [], some (st.var x).rank, none⟩]⟩
        st.funcs.length := by
  unfold resolveOne
  rw [h]
  rfl

lemma resolveOne_out (st : St) (x : Nat) :
    (resolveOne st x).2 = st.vars.length := by
  cases h : (st.var x).splitter with
  | none =>
    rw [resolveOne_eq_none st x h, add_branch_eq]
    simp
  | some sid =>
    rw [resolveOne_eq_some st x sid h, add_branch_eq]

lemma resolveOne_varsLen (st : St) (x : Nat) :
    (resolveOne st x).1.vars.length = st.vars.length + 1 := by
  cases h : (st.var x).splitter with
  | none =>
    rw [resolveOne_eq_none st x h, add_branch_eq]
    simp
  | some sid =>
    rw [resolveOne_eq_some st x sid h, add_branch_eq]
    simp

lemma resolveOne_funcsLen (st : St) (x : Nat) :
    st.funcs.length ≤ (resolveOne st x).1.funcs.length := by
  cases h : (st.var x).splitter with
  | none =>
    rw [resolveOne_eq_none st x h, add_branch_eq]
    simp
  | some sid =>
    rw [resolveOne_eq_some st x sid h, add_branch_eq]
    simp

lemma resolveOne_raws (st : St) (x : Nat) :
    (resolveOne st x).1.raws = st.raws := by
  cases h : (st.var x).splitter with
  | none => rw [resolveOne_eq_none st x h, add_branch_eq]
  | some sid => rw [resolveOne_eq_some st x sid h, add_branch_eq]

lemma getD_set_self {α : Type} (l : List α) (i : Nat) (a d : α)
    (h : i < l.length) : (l.set i a).getD i d = a := by
  simp [List.getD_eq_getElem?_getD, List.getElem?_set_self, h]

lemma getD_set_ne {α : Type} (l : List α) (i j : Nat) (a d : α) (h : i ≠ j) :
    (l.set i a).getD j d = l.getD j d := by
  simp [List.getD_eq_getElem?_getD, List.getElem?_set_ne h]

lemma add_branch_varsLen (st : St) (sid : Nat) :
    (Split.add_branch st sid).1.vars.length = st.vars.length + 1 := by
  show (st.vars ++ [_]).length = _
  simp

lemma add_branch_funcsLen (st : St) (sid : Nat) :
    (Split.add_branch st sid).1.funcs.length = st.funcs.length := by
  show (st.funcs.set _ _).length = _
  simp

lemma add_branch_raws (st : St) (sid : Nat) :
    (Split.add_branch st sid).1.raws = st.raws := rfl

lemma add_branch_out (st : St) (sid : Nat) :
    (Split.add_branch st sid).2 = st.vars.length := rfl

lemma add_branch_var_lt (st : St) (sid i : Nat) (h : i < st.vars.length) :
    (Split.add_branch st sid).1.var i = st.var i := by
  show (st.vars ++ [_]).getD i default = st.vars.getD i default
  exact List.getD_append _ _ _ _ h

lemma add_branch_var_new (st : St) (sid : Nat) :
    (Split.add_branch st sid).1.var st.vars.length =
      ⟨(st.var (((st.fn sid).inputs.getD []).headD 0)).data,
       (st.fn sid).rank.getD 0, some sid, none⟩ := by
  show (st.vars ++ [_]).getD st.vars.length default = _
  rw [getD_append_self]

lemma add_branch_var_gt (st : St) (sid v : Nat) (h : st.vars.length < v) :
    (Split.add_branch st sid).1.var v = default := by
  apply var_default
  rw [add_branch_varsLen]
  omega

lemma add_branch_fn_ne (st : St) (sid g : Nat) (h : g ≠ sid) :
    (Split.add_branch st sid).1.fn g = st.fn g := by
  show (st.funcs.set sid _).getD g default = st.funcs.getD g default
  exact getD_set_ne _ _ _ _ _ (fun he => h he.symm)

lemma add_branch_fn_self (st : St) (sid : Nat) (h : sid < st.funcs.length) :
    (Split.add_branch st sid).1.fn sid =
      { st.fn sid with
        outputs := some (((st.fn sid).outputs.getD []) ++ [st.vars.length]) } := by
  show (st.funcs.set sid _).getD sid default = _
  exact getD_set_self _ _ _ _ h

lemma resolveOne_eq_none' (st : St) (x : Nat)
    (h : (st.var x).splitter = none) :
    resolveOne st x = Split.add_branch (splitFresh st x) st.funcs.length :=
  resolveOne_eq_none st x h

lemma splitFresh_varsLen (st : St) (x : Nat) :
    (splitFresh st x).vars.length = st.vars.length := by
  simp [splitFresh]

lemma splitFresh_funcsLen (st : St) (x : Nat) :
    (splitFresh st x).funcs.length = st.funcs.length + 1 := by
  simp [splitFresh]

lemma splitFresh_var_ne (st : St) (x v : Nat) (h : v ≠ x) :
    (splitFresh st x).var v = st.var v := by
  show (st.vars.set x _).getD v default = st.vars.getD v default
  exact getD_set_ne _ _ _ _ _ (fun he => h he.symm)

lemma splitFresh_var_self (st : St) (x : Nat) (h : x < st.vars.length) :
    (splitFresh st x).var x =
      { st.var x with splitter := some st.funcs.length } := by
  show (st.vars.set x _).getD x default = _
  exact getD_set_self _ _ _ _ h

lemma splitFresh_fn_lt (st : St) (x g : Nat) (h : g < st.funcs.length) :
    (splitFresh st x).fn g = st.fn g := by
  show (st.funcs ++ [_]).getD g default = st.funcs.getD g default
  exact List.getD_append _ _ _ _ h

lemma splitFresh_fn_new (st : St) (x : Nat) :
    (splitFresh st x).fn st.funcs.length =
      ⟨some [x], some [], some (st.var x).rank, none⟩ := by
  show (st.funcs ++ [_]).getD st.funcs.length default = _
  rw [getD_append_self]

lemma splitFresh_raws (st : St) (x : Nat) :
    (splitFresh st x).raws = st.raws := rfl

/-- What `resolveOne` does to every variable: existing variables keep their
producer, rank and raw value (only `x` may gain a branch link, pointing at
the freshly allocated split); index `st.vars.length` is the new branch
variable; everything beyond stays unallocated. -/
lemma resolveOne_char (st : St) (x : Nat) : ∀ v,
    (v < st.vars.length ∧
      ((resolveOne st x).1.var v).creator = (st.var v).creator ∧
      ((resolveOne st x).1.var v).rank = (st.var v).rank ∧
      ((resolveOne st x).1.var v).data = (st.var v).data ∧
      (((resolveOne st x).1.var v).splitter = (st.var v).splitter ∨
        (v = x ∧ ((resolveOne st x).1.var v).splitter = some st.funcs.length ∧
          (resolveOne st x).1.funcs.length = st.funcs.length + 1)))
    ∨ (v = st.vars.length ∧ ∃ sid,
        ((resolveOne st x).1.var v).creator = some sid ∧
        ((resolveOne st x).1.var v).splitter = none ∧
        ((st.var x).splitter = some sid ∨
          (sid = st.funcs.length ∧
            (resolveOne st x).1.funcs.length = st.funcs.length + 1)))
    ∨ (st.vars.length < v ∧ (resolveOne st x).1.var v = default) := by
  intro v
  rcases Nat.lt_trichotomy v st.vars.length with hv | hv | hv
  · left
    refine ⟨hv, ?_⟩
    cases h : (st.var x).splitter with
    | some sid =>
      rw [resolveOne_eq_some st x sid h, add_branch_var_lt st sid v hv]
      exact ⟨rfl, rfl, rfl, Or.inl rfl⟩
    | none =>
      rw [resolveOne_eq_none' st x h]
      have hv' : v < (splitFresh st x).vars.length := by
        rw [splitFresh_varsLen]; exact hv
      rw [add_branch_var_lt _ _ v hv']
      by_cases hvx : v = x
      · subst hvx
        rw [splitFresh_var_self st v hv]
        refine ⟨rfl, rfl, rfl, Or.inr ⟨rfl, rfl, ?_⟩⟩
        rw [add_branch_funcsLen, splitFresh_funcsLen]
      · rw [splitFresh_var_ne st x v hvx]
        exact ⟨rfl, rfl, rfl, Or.inl rfl⟩
  · right; left
    refine ⟨hv, ?_⟩
    cases h : (st.var x).splitter with
    | some sid =>
      rw [resolveOne_eq_some st x sid h, hv]
      rw [add_branch_var_new st sid]
      exact ⟨sid, rfl, rfl, Or.inl rfl⟩
    | none =>
      rw [resolveOne_eq_none' st x h, hv]
      have : st.vars.length = (splitFresh st x).vars.length :=
        (splitFresh_varsLen st x).symm
      rw [this, add_branch_var_new]
      refine ⟨st.funcs.length, rfl, rfl, Or.inr ⟨rfl, ?_⟩⟩
      rw [add_branch_funcsLen, splitFresh_funcsLen]
  · right; right
    refine ⟨hv, ?_⟩
    apply var_default
    rw [resolveOne_varsLen]
    omega

lemma resolveOne_fn_frozen (st : St) (x g : Nat) (hg : g < st.funcs.length)
    (hx : (st.var x).splitter ≠ some g) :
    (resolveOne st x).1.fn g = st.fn g := by
  cases h : (st.var x).splitter with
  | some sid =>
    rw [resolveOne_eq_some st x sid h]
    exact add_branch_fn_ne st sid g (by rintro rfl; rw [h] at hx; exact hx rfl)
  | none =>
    rw [resolveOne_eq_none' st x h,
        add_branch_fn_ne _ _ _ (Nat.ne_of_lt hg), splitFresh_fn_lt st x g hg]

lemma resolveOne_SpB (st : St) (x : Nat) (h : SpB st) :
    SpB (resolveOne st x).1 := by
  intro v s hs
  rcases resolveOne_char st x v with ⟨_, _, _, _, hsp⟩ | ⟨_, sid, _, hspn, _⟩ |
    ⟨_, hd⟩
  · rcases hsp with hsp | ⟨_, hsp, hlen⟩
    · rw [hsp] at hs
      exact lt_of_lt_of_le (h v s hs) (resolveOne_funcsLen st x)
    · rw [hsp] at hs
      cases hs
      omega
  · rw [hspn] at hs
    exact Option.noConfusion hs
  · rw [hd] at hs
    exact Option.noConfusion hs

lemma resolveOne_CrB (st : St) (x : Nat) (hs : SpB st) (hc : CrB st) :
    CrB (resolveOne st x).1 := by
  intro v s hcr
  rcases resolveOne_char st x v with ⟨_, hcrv, _, _, _⟩ |
    ⟨_, sid, hcrv, _, hsid⟩ | ⟨_, hd⟩
  · rw [hcrv] at hcr
    exact lt_of_lt_of_le (hc v s hcr) (resolveOne_funcsLen st x)
  · rw [hcrv] at hcr
    cases hcr
    rcases hsid with hsid | ⟨hsid, hlen⟩
    · exact lt_of_lt_of_le (hs x s hsid) (resolveOne_funcsLen st x)
    · omega
  · rw [hd] at hcr
    exact Option.noConfusion hcr

lemma resolveOne_splitAvoid (st : St) (x g : Nat) (hg : g < st.funcs.length)
    (hav : SplitAvoid g st) : SplitAvoid g (resolveOne st x).1 := by
  intro v hs
  rcases resolveOne_char st x v with ⟨_, _, _, _, hsp⟩ | ⟨_, sid, _, hspn, _⟩ |
    ⟨_, hd⟩
  · rcases hsp with hsp | ⟨_, hsp, _⟩
    · rw [hsp] at hs
      exact hav v hs
    · rw [hsp] at hs
      cases hs
      omega
  · rw [hspn] at hs
    exact Option.noConfusion hs
  · rw [hd] at hs
    exact Option.noConfusion hs

lemma resolveOne_creatorAvoid (st : St) (x g : Nat) (hg : g < st.funcs.length)
    (hsp : SplitAvoid g st) (hcr : CreatorAvoid g st) :
    CreatorAvoid g (resolveOne st x).1 := by
  intro v hc
  rcases resolveOne_char st x v with ⟨_, hcrv, _, _, _⟩ |
    ⟨_, sid, hcrv, _, hsid⟩ | ⟨_, hd⟩
  · rw [hcrv] at hc
    exact hcr v hc
  · rw [hcrv] at hc
    cases hc
    rcases hsid with hsid | ⟨hsid, _⟩
    · exact hsp x hsid
    · omega
  · rw [hd] at hc
    exact Option.noConfusion hc

/-- Everything the rest of the development needs to know about the whole
branch-resolution loop, by induction on the input list. -/
lemma resolveInputs_spec (xs : List Nat) : ∀ st : St,
    (resolveInputs st xs).2.length = xs.length ∧
    (resolveInputs st xs).1.vars.length = st.vars.length + xs.length ∧
    st.funcs.length ≤ (resolveInputs st xs).1.funcs.length ∧
    (resolveInputs st xs).1.raws = st.raws ∧
    (∀ o ∈ (resolveInputs st xs).2,
      st.vars.length ≤ o ∧ o < (resolveInputs st xs).1.vars.length) ∧
    (∀ i < st.vars.length,
      ((resolveInputs st xs).1.var i).creator = (st.var i).creator ∧
      ((resolveInputs st xs).1.var i).rank = (st.var i).rank ∧
      ((resolveInputs st xs).1.var i).data = (st.var i).data) ∧
    (SpB st → SpB (resolveInputs st xs).1) ∧
    (SpB st → CrB st → CrB (resolveInputs st xs).1) ∧
    (∀ g, g < st.funcs.length → SplitAvoid g st →
      (SplitAvoid g (resolveInputs st xs).1 ∧
       (resolveInputs st xs).1.fn g = st.fn g ∧
       (CreatorAvoid g st → CreatorAvoid g (resolveInputs st xs).1))) := by
  induction xs with
  | nil =>
    intro st
    refine ⟨rfl, by simp [resolveInputs], le_refl _, rfl, by simp [resolveInputs],
      fun i _ => ⟨rfl, rfl, rfl⟩, fun h => h, fun _ h => h, ?_⟩
    intro g _ hav
    exact ⟨hav, rfl, fun h => h⟩
  | cons x xs ih =>
    intro st
    have hstep : resolveInputs st (x :: xs) =
        ((resolveInputs (resolveOne st x).1 xs).1,
         (resolveOne st x).2 :: (resolveInputs (resolveOne st x).1 xs).2) := rfl
    obtain ⟨ihlen, ihvars, ihfuncs, ihraws, ihmem, ihpres, ihspb, ihcrb, ihg⟩ :=
      ih (resolveOne st x).1
    rw [hstep]
    refine ⟨by simp [ihlen], ?_, ?_, ?_, ?_, ?_, ?_, ?_, ?_⟩
    · simp only [ihvars, resolveOne_varsLen, List.length_cons]
      omega
    · exact le_trans (resolveOne_funcsLen st x) ihfuncs
    · rw [ihraws, resolveOne_raws]
    · intro o ho
      rcases List.mem_cons.mp ho with ho | ho
      · subst ho
        rw [resolveOne_out]
        refine ⟨le_refl _, ?_⟩

        rw [ihvars, resolveOne_varsLen]
        omega
      · obtain ⟨h1, h2⟩ := ihmem o ho
        rw [resolveOne_varsLen] at h1
        exact ⟨by omega, h2⟩
    · intro i hi
      have hi1 : i < (resolveOne st x).1.vars.length := by
        rw [resolveOne_varsLen]; omega
      obtain ⟨p1, p2, p3⟩ := ihpres i hi1
      rcases resolveOne_char st x i with ⟨_, q1, q2, q3, _⟩ | ⟨hi', _⟩ | ⟨hi', _⟩
      · exact ⟨p1.trans q1, p2.trans q2, p3.trans q3⟩
      · omega
      · omega
    · intro h
      exact ihspb (resolveOne_SpB st x h)
    · intro h hc
      exact ihcrb (resolveOne_SpB st x h) (resolveOne_CrB st x h hc)
    · intro g hg hav
      have hg1 : g < (resolveOne st x).1.funcs.length :=
        lt_of_lt_of_le hg (resolveOne_funcsLen st x)
      have hav1 : SplitAvoid g (resolveOne st x).1 :=
        resolveOne_splitAvoid st x g hg hav
      obtain ⟨r1, r2, r3⟩ := ihg g hg1 hav1
      refine ⟨r1, ?_, ?_⟩
      · rw [r2, resolveOne_fn_frozen st x g hg (hav x)]
      · intro hcr
        exact r3 (resolveOne_creatorAvoid st x g hg hav hcr)

lemma setFn_var (st : St) (i : Nat) (f : FuncNode) (v : Nat) :
    (st.setFn i f).var v = st.var v := rfl

lemma setFn_vars (st : St) (i : Nat) (f : FuncNode) :
    (st.setFn i f).vars = st.vars := rfl

lemma setFn_raws (st : St) (i : Nat) (f : FuncNode) :
    (st.setFn i f).raws = st.raws := rfl

lemma setFn_funcsLen (st : St) (i : Nat) (f : FuncNode) :
    (st.setFn i f).funcs.length = st.funcs.length := by
  simp [St.setFn]

lemma setFn_fn_self (st : St) (i : Nat) (f : FuncNode)
    (h : i < st.funcs.length) : (st.setFn i f).fn i = f :=
  getD_set_self _ _ _ _ h

lemma setFn_fn_ne (st : St) (i : Nat) (f : FuncNode) (g : Nat) (h : g ≠ i) :
    (st.setFn i f).fn g = st.fn g :=
  getD_set_ne _ _ _ _ _ (fun he => h he.symm)

lemma callStart_vars (pf : Option ParamFn) (st : St) (xs : List Nat) :
    (callStart pf st xs).vars = st.vars := rfl

lemma callStart_var (pf : Option ParamFn) (st : St) (xs : List Nat) (v : Nat) :
    (callStart pf st xs).var v = st.var v := rfl

lemma callStart_raws (pf : Option ParamFn) (st : St) (xs : List Nat) :
    (callStart pf st xs).raws = st.raws := rfl

lemma callStart_funcsLen (pf : Option ParamFn) (st : St) (xs : List Nat) :
    (callStart pf st xs).funcs.length = st.funcs.length + 1 := by
  simp [callStart]

lemma callStart_fn_self (pf : Option ParamFn) (st : St) (xs : List Nat) :
    (callStart pf st xs).fn st.funcs.length =
      ⟨some xs, none, none, pf⟩ := by
  show (st.funcs ++ [_]).getD st.funcs.length default = _
  rw [getD_append_self]

lemma callStart_fn_lt (pf : Option ParamFn) (st : St) (xs : List Nat) (g : Nat)
    (h : g < st.funcs.length) : (callStart pf st xs).fn g = st.fn g := by
  show (st.funcs ++ [_]).getD g default = st.funcs.getD g default
  exact List.getD_append _ _ _ _ h

lemma callStart_SpB (pf : Option ParamFn) (st : St) (xs : List Nat)
    (h : SpB st) : SpB (callStart pf st xs) := by
  intro v s hs
  rw [callStart_funcsLen]
  exact lt_of_lt_of_le (h v s hs) (Nat.le_succ _)

lemma callStart_CrB (pf : Option ParamFn) (st : St) (xs : List Nat)
    (h : CrB st) : CrB (callStart pf st xs) := by
  intro v s hs
  rw [callStart_funcsLen]
  exact lt_of_lt_of_le (h v s hs) (Nat.le_succ _)

/-! ## Facts about `pyMax` -/

lemma le_foldl_max (l : List Nat) : ∀ a : Nat, a ≤ l.foldl max a := by
  induction l with
  | nil => intro a; exact le_refl a
  | cons b l ih =>
    intro a
    exact le_trans (le_max_left a b) (ih (max a b))

lemma mem_le_foldl_max (l : List Nat) : ∀ a r : Nat, r ∈ l → r ≤ l.foldl max a := by
  induction l with
  | nil => intro a r h; cases h
  | cons b l ih =>
    intro a r h
    rcases List.mem_cons.mp h with h | h
    · subst h
      exact le_trans (le_max_right a r) (le_foldl_max l _)
    · exact ih _ r h

lemma mem_le_pyMax (l : List Nat) (r : Nat) (h : r ∈ l) : r ≤ pyMax l := by
  cases l with
  | nil => cases h
  | cons a l =>
    rcases List.mem_cons.mp h with h | h
    · subst h
      exact le_foldl_max l r
    · exact mem_le_foldl_max l a r h

lemma callFinish_var_old (fid rank : Nat) (st4 : St)
    (e : Except Err (List Raw)) (v : Nat) (hv : v < st4.vars.length) :
    (callFinish fid rank st4 e).1.var v = st4.var v := by
  cases e with
  | error err => rfl
  | ok outs =>
    show (st4.vars ++ _).getD v default = st4.vars.getD v default
    exact List.getD_append _ _ _ _ hv

lemma callFinish_varsLen_le (fid rank : Nat) (st4 : St)
    (e : Except Err (List Raw)) :
    st4.vars.length ≤ (callFinish fid rank st4 e).1.vars.length := by
  cases e with
  | error err => exact le_refl _
  | ok outs =>
    show st4.vars.length ≤ (st4.vars ++ _).length
    simp

lemma callFinish_funcsLen (fid rank : Nat) (st4 : St)
    (e : Except Err (List Raw)) :
    (callFinish fid rank st4 e).1.funcs.length = st4.funcs.length := by
  cases e with
  | error err => rfl
  | ok outs =>
    show (st4.funcs.set fid _).length = _
    simp

lemma callFinish_fn_fid (fid rank : Nat) (st4 : St)
    (e : Except Err (List Raw)) (h : fid < st4.funcs.length) :
    ((callFinish fid rank st4 e).1.fn fid).inputs = (st4.fn fid).inputs ∧
    ((callFinish fid rank st4 e).1.fn fid).rank = (st4.fn fid).rank ∧
    ((callFinish fid rank st4 e).1.fn fid).pf = (st4.fn fid).pf := by
  cases e with
  | error err => exact ⟨rfl, rfl, rfl⟩
  | ok outs =>
    have hfn : (callFinish fid rank st4 (.ok outs)).1.fn fid =
        { st4.fn fid with outputs := some ((List.range outs.length).map
            (fun j => st4.vars.length + j)) } := by
      show (st4.funcs.set fid _).getD fid default = _
      rw [getD_set_self _ _ _ _ h]
      rfl
    rw [hfn]
    exact ⟨rfl, rfl, rfl⟩

lemma callFinish_fn_ne (fid rank : Nat) (st4 : St)
    (e : Except Err (List Raw)) (g : Nat) (h : g ≠ fid) :
    (callFinish fid rank st4 e).1.fn g = st4.fn g := by
  cases e with
  | error err => rfl
  | ok outs => exact setFn_fn_ne _ _ _ _ h

lemma callFinish_raws_prefix (fid rank : Nat) (st4 : St)
    (e : Except Err (List Raw)) :
    (callFinish fid rank st4 e).1.raws = st4.raws ∨
    ∃ outs, (callFinish fid rank st4 e).1.raws = st4.raws ++ outs := by
  cases e with
  | error err => exact Or.inl rfl
  | ok outs => exact Or.inr ⟨outs, rfl⟩

lemma callFinish_ok_res (fid rank : Nat) (st4 : St) (outs : List Raw) :
    (callFinish fid rank st4 (.ok outs)).2 =
      .ok (fid, (List.range outs.length).map (fun j => st4.vars.length + j)) :=
  rfl

lemma callFinish_ok_fn_outputs (fid rank : Nat) (st4 : St) (outs : List Raw)
    (h : fid < st4.funcs.length) :
    ((callFinish fid rank st4 (.ok outs)).1.fn fid).outputs =
      some ((List.range outs.length).map (fun j => st4.vars.length + j)) := by
  have hfn : (callFinish fid rank st4 (.ok outs)).1.fn fid =
      { st4.fn fid with outputs := some ((List.range outs.length).map
          (fun j => st4.vars.length + j)) } := by
    show (st4.funcs.set fid _).getD fid default = _
    rw [getD_set_self _ _ _ _ h]
    rfl
  rw [hfn]

lemma callFinish_ok_newvar (fid rank : Nat) (st4 : St) (outs : List Raw)
    (j : Nat) (hj : j < outs.length) :
    (callFinish fid rank st4 (.ok outs)).1.var (st4.vars.length + j) =
      ⟨st4.raws.length + j, rank, some fid, none⟩ := by
  show (st4.vars ++ (List.range outs.length).map _).getD
      (st4.vars.length + j) default = _
  rw [List.getD_append_right _ _ _ _ (Nat.le_add_right _ _), Nat.add_sub_cancel_left]
  rw [List.getD_eq_getElem _ _ (by simpa using hj)]
  simp

lemma callFinish_var_cases (fid rank : Nat) (st4 : St)
    (e : Except Err (List Raw)) (v : Nat) :
    (callFinish fid rank st4 e).1.var v = st4.var v ∨
    (((callFinish fid rank st4 e).1.var v).creator = some fid ∧
     ((callFinish fid rank st4 e).1.var v).splitter = none) := by
  cases e with
  | error err => exact Or.inl rfl
  | ok outs =>
    rcases Nat.lt_or_ge v st4.vars.length with hv | hv
    · exact Or.inl (callFinish_var_old _ _ _ _ _ hv)
    · rcases Nat.lt_or_ge v (st4.vars.length + outs.length) with hv2 | hv2
      · right
        obtain ⟨j, hj, rfl⟩ : ∃ j, j < outs.length ∧ v = st4.vars.length + j :=
          ⟨v - st4.vars.length, by omega, by omega⟩
        rw [callFinish_ok_newvar _ _ _ _ _ hj]
        exact ⟨rfl, rfl⟩
      · left
        have h1 : (callFinish fid rank st4 (.ok outs)).1.var v = default := by
          apply var_default
          show (st4.vars ++ _).length ≤ v
          simp
          omega
        have h2 : st4.var v = default := var_default _ _ (by omega)
        rw [h1, h2]

lemma splitFold_none_nil (n fresh : Nat) (xs : List (Option GradObj))
    (h : xs.filterMap id = []) : xs.foldl (splitStep n fresh) none = none := by
  rw [splitFold_none, h]

lemma splitFold_none_cons (n fresh : Nat) (xs : List (Option GradObj))
    (g : GradObj) (gs : List GradObj) (h : xs.filterMap id = g :: gs) :
    xs.foldl (splitStep n fresh) none =
      if n = 1 then some ⟨g.oid, (presentVals xs).sum⟩
      else some ⟨fresh, (presentVals xs).sum⟩ := by
  rw [splitFold_none, h]

lemma setVar_clear_creator_var (st : St) (y v : Nat) :
    (st.setVar y { st.var y with creator := none }).var v =
      if v = y then { st.var v with creator := none } else st.var v := by
  by_cases hv : v = y
  · subst hv
    rw [if_pos rfl]
    rcases Nat.lt_or_ge v st.vars.length with h | h
    · show (st.vars.set v _).getD v default = _
      exact getD_set_self _ _ _ _ h
    · show (st.vars.set v _).getD v default = _
      rw [List.set_eq_of_length_le h]
      show st.var v = _
      rw [var_default st v h]
      rfl
  · rw [if_neg hv]
    show (st.vars.set y _).getD v default = st.vars.getD v default
    exact getD_set_ne _ _ _ _ _ (fun he => hv he.symm)

lemma setVar_clear_splitter_var (st : St) (y v : Nat) :
    (st.setVar y { st.var y with splitter := none }).var v =
      if v = y then { st.var v with splitter := none } else st.var v := by
  by_cases hv : v = y
  · subst hv
    rw [if_pos rfl]
    rcases Nat.lt_or_ge v st.vars.length with h | h
    · show (st.vars.set v _).getD v default = _
      exact getD_set_self _ _ _ _ h
    · show (st.vars.set v _).getD v default = _
      rw [List.set_eq_of_length_le h]
      show st.var v = _
      rw [var_default st v h]
      rfl
  · rw [if_neg hv]
    show (st.vars.set y _).getD v default = st.vars.getD v default
    exact getD_set_ne _ _ _ _ _ (fun he => hv he.symm)

lemma clear_creator_fold (ys : List Nat) : ∀ st : St,
    (ys.foldl (fun st y => st.setVar y { st.var y with creator := none })
      st).raws = st.raws ∧
    (ys.foldl (fun st y => st.setVar y { st.var y with creator := none })
      st).funcs = st.funcs ∧
    (∀ v,
      ((ys.foldl (fun st y => st.setVar y { st.var y with creator := none })
        st).var v).data = (st.var v).data ∧
      ((ys.foldl (fun st y => st.setVar y { st.var y with creator := none })
        st).var v).rank = (st.var v).rank ∧
      ((ys.foldl (fun st y => st.setVar y { st.var y with creator := none })
        st).var v).splitter = (st.var v).splitter) ∧
    (∀ v ∈ ys,
      ((ys.foldl (fun st y => st.setVar y { st.var y with creator := none })
        st).var v).creator = none) ∧
    (∀ v, v ∉ ys →
      ((ys.foldl (fun st y => st.setVar y { st.var y with creator := none })
        st).var v).creator = (st.var v).creator) := by
  induction ys with
  | nil =>
    intro st
    exact ⟨rfl, rfl, fun v => ⟨rfl, rfl, rfl⟩, fun v hv => absurd hv
      (List.not_mem_nil v), fun v _ => rfl⟩
  | cons y ys ih =>
    intro st
    simp only [List.foldl_cons]
    obtain ⟨ihraws, ihfuncs, ihfields, ihmem, ihnot⟩ :=
      ih (st.setVar y { st.var y with creator := none })
    refine ⟨?_, ?_, ?_, ?_, ?_⟩
    · rw [ihraws]
      rfl
    · rw [ihfuncs]
      rfl
    · intro v
      obtain ⟨d, r, s⟩ := ihfields v
      rw [d, r, s, setVar_clear_creator_var]
      by_cases hv : v = y
      · rw [if_pos hv]
        exact ⟨rfl, rfl, rfl⟩
      · rw [if_neg hv]
        exact ⟨rfl, rfl, rfl⟩
    · intro v hv
      rcases List.mem_cons.mp hv with hv | hv
      · by_cases hvy : v ∈ ys
        · exact ihmem v hvy
        · rw [ihnot v hvy, setVar_clear_creator_var, if_pos hv]
      · exact ihmem v hv
    · intro v hv
      have hvy : v ≠ y := fun he => hv (he ▸ List.mem_cons_self y ys)
      have hvys : v ∉ ys := fun he => hv (List.mem_cons_of_mem y he)
      rw [ihnot v hvys, setVar_clear_creator_var, if_neg hvy]

lemma clear_splitter_fold (xs : List Nat) : ∀ st : St,
    (xs.foldl (fun st x => st.setVar x { st.var x with splitter := none })
      st).raws = st.raws ∧
    (xs.foldl (fun st x => st.setVar x { st.var x with splitter := none })
      st).funcs = st.funcs ∧
    (∀ v,
      ((xs.foldl (fun st x => st.setVar x { st.var x with splitter := none })
        st).var v).data = (st.var v).data ∧
      ((xs.foldl (fun st x => st.setVar x { st.var x with splitter := none })
        st).var v).rank = (st.var v).rank ∧
      ((xs.foldl (fun st x => st.setVar x { st.var x with splitter := none })
        st).var v).creator = (st.var v).creator) ∧
    (∀ v ∈ xs,
      ((xs.foldl (fun st x => st.setVar x { st.var x with splitter := none })
        st).var v).splitter = none) ∧
    (∀ v, v ∉ xs →
      ((xs.foldl (fun st x => st.setVar x { st.var x with splitter := none })
        st).var v).splitter = (st.var v).splitter) := by
  induction xs with
  | nil =>
    intro st
    exact ⟨rfl, rfl, fun v => ⟨rfl, rfl, rfl⟩, fun v hv => absurd hv
      (List.not_mem_nil v), fun v _ => rfl⟩
  | cons y ys ih =>
    intro st
    simp only [List.foldl_cons]
    obtain ⟨ihraws, ihfuncs, ihfields, ihmem, ihnot⟩ :=
      ih (st.setVar y { st.var y with splitter := none })
    refine ⟨?_, ?_, ?_, ?_, ?_⟩
    · rw [ihraws]
      rfl
    · rw [ihfuncs]
      rfl
    · intro v
      obtain ⟨d, r, s⟩ := ihfields v
      rw [d, r, s, setVar_clear_splitter_var]
      by_cases hv : v = y
      · rw [if_pos hv]
        exact ⟨rfl, rfl, rfl⟩
      · rw [if_neg hv]
        exact ⟨rfl, rfl, rfl⟩
    · intro v hv
      rcases List.mem_cons.mp hv with hv | hv
      · by_cases hvy : v ∈ ys
        · exact ihmem v hvy
        · rw [ihnot v hvy, setVar_clear_splitter_var, if_pos hv]
      · exact ihmem v hv
    · intro v hv
      have hvy : v ≠ y := fun he => hv (he ▸ List.mem_cons_self y ys)
      have hvys : v ∉ ys := fun he => hv (List.mem_cons_of_mem y he)
      rw [ihnot v hvys, setVar_clear_splitter_var, if_neg hvy]

lemma callFinish_ok_varsLen (fid rank : Nat) (st4 : St) (outs : List Raw) :
    (callFinish fid rank st4 (.ok outs)).1.vars.length =
      st4.vars.length + outs.length := by
  show (st4.vars ++ _).length = _
  simp

/-- Everything later proofs need about a *successful* `Function.__call__`. -/
lemma call_ok_spec (impl : Impl) (pf : Option ParamFn) (st : St)
    (xs : List Nat) (st' : St) (fid : Nat) (outs : List Nat)
    (hwf : WF st)
    (h : Function.call impl pf st xs = (st', .ok (fid, outs))) :
    fid = st.funcs.length ∧
    WF st' ∧
    st.funcs.length < st'.funcs.length ∧
    st.vars.length ≤ st'.vars.length ∧
    (st'.fn fid).pf = pf ∧
    (st'.fn fid).outputs = some outs ∧
    (∀ o ∈ outs, st.vars.length ≤ o ∧ o < st'.vars.length) ∧
    (∃ resolved, (st'.fn fid).inputs = some resolved ∧
      ∀ i ∈ resolved, st.vars.length ≤ i ∧ i < st'.vars.length) ∧
    SplitAvoid st.funcs.length st' := by
  cases xs with
  | nil =>
    have : Function.call impl pf st [] =
        ((callStart pf st []).setFn st.funcs.length
          { (callStart pf st []).fn st.funcs.length with inputs := some [] },
         .error .valueError) := rfl
    rw [this] at h
    exact absurd (congrArg Prod.snd h) (by simp)
  | cons x xs =>
    set st1 := callStart pf st (x :: xs) with hst1
    set p := resolveInputs st1 (x :: xs) with hp
    set st3 := p.1.setFn st.funcs.length
        { p.1.fn st.funcs.length with inputs := some p.2 } with hst3
    set rk := pyMax (p.2.map (fun i => (st3.var i).rank)) with hrk
    set st4 := st3.setFn st.funcs.length
        { st3.fn st.funcs.length with rank := some rk } with hst4
    have hcall : Function.call impl pf st (x :: xs) =
        callFinish st.funcs.length rk st4
          (Function.forward impl
            (p.2.map (fun i => st4.raw (st4.var i).data))) :=
      rfl
    rw [hcall] at h
    obtain ⟨hlen, hvarsP, hfuncsP, hrawsP, hmem, hpres, hspb, hcrb, hg⟩ :=
      resolveInputs_spec (x :: xs) st1
    have hfid1 : st.funcs.length < st1.funcs.length := by
      rw [hst1, callStart_funcsLen]
      omega
    have hfidP : st.funcs.length < p.1.funcs.length :=
      lt_of_lt_of_le hfid1 hfuncsP
    have hfid3 : st.funcs.length < st3.funcs.length := by
      rw [hst3, setFn_funcsLen]
      exact hfidP
    have hfid4 : st.funcs.length < st4.funcs.length := by
      rw [hst4, setFn_funcsLen]
      exact hfid3
    have hsa1 : SplitAvoid st.funcs.length st1 :=
      splitAvoid_of_spb st st.funcs.length (le_refl _) hwf.1
    obtain ⟨hsaP, hfnP, hcaP⟩ := hg st.funcs.length hfid1 hsa1
    have hspbP : SpB p.1 := hspb (callStart_SpB pf st (x :: xs) hwf.1)
    have hcrbP : CrB p.1 :=
      hcrb (callStart_SpB pf st (x :: xs) hwf.1)
        (callStart_CrB pf st (x :: xs) hwf.2)
    have hfn3 : st3.fn st.funcs.length =
        { p.1.fn st.funcs.length with inputs := some p.2 } := by
      rw [hst3]
      exact setFn_fn_self _ _ _ hfidP
    have hfn4 : st4.fn st.funcs.length =
        { st3.fn st.funcs.length with rank := some rk } := by
      rw [hst4]
      exact setFn_fn_self _ _ _ hfid3
    have hv41 : st4.vars.length = st1.vars.length + (x :: xs).length := by
      rw [hst4, setFn_vars, hst3, setFn_vars, hp]
      exact hvarsP
    cases hE : Function.forward impl
        (p.2.map (fun i => st4.raw (st4.var i).data)) with
    | error err =>
      rw [hE] at h
      have : callFinish st.funcs.length rk st4 (.error err) =
          (st4, .error err) := rfl
      rw [this] at h
      exact absurd (congrArg Prod.snd h) (by simp)
    | ok outsR =>
      rw [hE] at h
      have hres : (callFinish st.funcs.length rk st4 (.ok outsR)).2 =
          .ok (st.funcs.length,
            (List.range outsR.length).map (fun j => st4.vars.length + j)) :=
        rfl
      have hsnd := congrArg Prod.snd h
      rw [hres] at hsnd
      simp only [Except.ok.injEq, Prod.mk.injEq] at hsnd
      obtain ⟨hfid, houts⟩ := hsnd
      subst hfid
      subst houts
      have hst' : st' = (callFinish st.funcs.length rk st4 (.ok outsR)).1 :=
        (congrArg Prod.fst h).symm
      have hvlen' : st'.vars.length = st4.vars.length + outsR.length := by
        rw [hst']
        exact callFinish_ok_varsLen _ _ _ _
      have hflen' : st'.funcs.length = st4.funcs.length := by
        rw [hst']
        exact callFinish_funcsLen _ _ _ _
      have hvar1le : st.vars.length ≤ st4.vars.length := by
        rw [hv41, hst1, callStart_vars]
        omega
      have hf4P : st4.funcs.length = p.1.funcs.length := by
        rw [hst4, setFn_funcsLen, hst3, setFn_funcsLen]
      have hv4P : p.1.vars.length = st4.vars.length := by
        rw [hst4, setFn_vars, hst3, setFn_vars]
      have hv1s : st1.vars.length = st.vars.length := by
        rw [hst1, callStart_vars]
      refine ⟨rfl, ⟨?_, ?_⟩, ?_, ?_, ?_, ?_, ?_, ?_, ?_⟩
      · intro v s hs
        rw [hst'] at hs
        rcases callFinish_var_cases st.funcs.length rk st4 (.ok outsR) v
          with hc | ⟨_, hcs⟩
        · rw [hc] at hs
          have := hspbP v s hs
          rw [hflen', hf4P]
          exact this
        · rw [hcs] at hs
          exact Option.noConfusion hs
      · intro v s hs
        rw [hst'] at hs
        rcases callFinish_var_cases st.funcs.length rk st4 (.ok outsR) v
          with hc | ⟨hcr, _⟩
        · rw [hc] at hs
          have := hcrbP v s hs
          rw [hflen', hf4P]
          exact this
        · rw [hcr] at hs
          cases hs
          rw [hflen']
          exact hfid4
      · rw [hflen']
        exact hfid4
      · rw [hvlen']
        omega
      · rw [hst', (callFinish_fn_fid _ _ _ _ hfid4).2.2, hfn4, hfn3]
        show (p.1.fn st.funcs.length).pf = pf
        rw [hp, hfnP, hst1, callStart_fn_self]
      · rw [hst']
        exact callFinish_ok_fn_outputs _ _ _ _ hfid4
      · intro o ho
        obtain ⟨j, hj, rfl⟩ := List.mem_map.mp ho
        have hjlt : j < outsR.length := List.mem_range.mp hj
        constructor
        · omega
        · rw [hvlen']
          omega
      · refine ⟨p.2, ?_, ?_⟩
        · rw [hst', (callFinish_fn_fid _ _ _ _ hfid4).1, hfn4, hfn3]
        · intro i hi
          obtain ⟨hi1, hi2⟩ := hmem i hi
          rw [hv1s] at hi1
          rw [hv4P] at hi2
          rw [hvlen']
          omega
      · intro v
        rw [hst']
        rcases callFinish_var_cases st.funcs.length rk st4 (.ok outsR) v
          with hc | ⟨_, hcs⟩
        · rw [hc]
          exact hsaP v
        · rw [hcs]
          simp

/-- A successful or failed call leaves any older operation node `g` (one no
branch link points at) untouched, and no branch link points at `g`
afterwards either. -/
lemma call_preserves (impl : Impl) (pf : Option ParamFn) (st : St)
    (xs : List Nat) (st' : St) (res : Except Err (Nat × List Nat)) (g : Nat)
    (hg : g < st.funcs.length) (hav : SplitAvoid g st)
    (h : Function.call impl pf st xs = (st', res)) :
    st'.fn g = st.fn g ∧ SplitAvoid g st' := by
  cases xs with
  | nil =>
    have hcall : Function.call impl pf st [] =
        ((callStart pf st []).setFn st.funcs.length
          { (callStart pf st []).fn st.funcs.length with inputs := some [] },
         .error .valueError) := rfl
    rw [hcall] at h
    have hst' : st' = (callStart pf st []).setFn st.funcs.length
        { (callStart pf st []).fn st.funcs.length with inputs := some [] } :=
      (congrArg Prod.fst h).symm
    constructor
    · rw [hst', setFn_fn_ne _ _ _ _ (Nat.ne_of_lt hg),
        callStart_fn_lt _ _ _ _ hg]
    · intro v
      rw [hst']
      exact hav v
  | cons x xs =>
    set st1 := callStart pf st (x :: xs) with hst1
    set p := resolveInputs st1 (x :: xs) with hp
    set st3 := p.1.setFn st.funcs.length
        { p.1.fn st.funcs.length with inputs := some p.2 } with hst3
    set rk := pyMax (p.2.map (fun i => (st3.var i).rank)) with hrk
    set st4 := st3.setFn st.funcs.length
        { st3.fn st.funcs.length with rank := some rk } with hst4
    have hcall : Function.call impl pf st (x :: xs) =
        callFinish st.funcs.length rk st4
          (Function.forward impl
            (p.2.map (fun i => st4.raw (st4.var i).data))) :=
      rfl
    rw [hcall] at h
    have hst' : st' = (callFinish st.funcs.length rk st4
        (Function.forward impl
          (p.2.map (fun i => st4.raw (st4.var i).data)))).1 :=
      (congrArg Prod.fst h).symm
    obtain ⟨hlen, hvarsP, hfuncsP, hrawsP, hmem, hpres, hspb, hcrb, hgal⟩ :=
      resolveInputs_spec (x :: xs) st1
    have hfid1 : st.funcs.length < st1.funcs.length := by
      rw [hst1, callStart_funcsLen]
      omega
    have hg1 : g < st1.funcs.length := lt_trans hg hfid1
    have hav1 : SplitAvoid g st1 := hav
    obtain ⟨hsaP, hfnP, _⟩ := hgal g hg1 hav1
    have hgfid : g ≠ st.funcs.length := Nat.ne_of_lt hg
    constructor
    · rw [hst', callFinish_fn_ne _ _ _ _ _ hgfid, hst4,
        setFn_fn_ne _ _ _ _ hgfid, hst3, setFn_fn_ne _ _ _ _ hgfid,
        hp, hfnP, hst1, callStart_fn_lt _ _ _ _ hg]
    · intro v
      rw [hst']
      rcases callFinish_var_cases st.funcs.length rk st4
        (Function.forward impl (p.2.map (fun i => st4.raw (st4.var i).data)))
        v with hc | ⟨_, hcs⟩
      · rw [hc]
        exact hsaP v
      · rw [hcs]
        simp

/-! ## Claim theorems -/

/-- C1: `Split.backward` skips absent branch gradients, returns a one-element
tuple whose entry is `None` when every branch gradient is absent and
otherwise holds the sum of all present branch gradients; in the one-branch
case the single present gradient object is reused without copying. -/
theorem split_backward_sums (fresh : Nat) (gys : List (Option GradObj)) :
    ∃ r, Split.backward fresh gys = [r] ∧
      (gys.filterMap id = [] → r = none) ∧
      (gys.filterMap id ≠ [] →
        ∃ a, r = some a ∧ a.val = (presentVals gys).sum) ∧
      (∀ g, gys = [some g] → r = some g) := by
  refine ⟨gys.foldl (splitStep gys.length fresh) none, rfl, ?_, ?_, ?_⟩
  · intro h
    exact splitFold_none_nil _ _ _ h
  · intro h
    cases hfm : gys.filterMap id with
    | nil => exact absurd hfm h
    | cons g gs =>
      rw [splitFold_none_cons _ _ _ _ _ hfm]
      by_cases hn : gys.length = 1
      · rw [if_pos hn]
        exact ⟨_, rfl, rfl⟩
      · rw [if_neg hn]
        exact ⟨_, rfl, rfl⟩
  · intro g hg
    subst hg
    rfl

/-- C1 witness: at gradients `(2, None, 3)` the result is a one-element
tuple summing to `5`; at a single-branch gradient the object is returned
itself. -/
theorem split_backward_sums_witness :
    (∃ r, Split.backward 7 [some ⟨0, 2⟩, none, some ⟨1, 3⟩] = [r] ∧
      ∃ a, r = some a ∧ a.val = 5) ∧
    (∃ r, Split.backward 9 [some ⟨3, 4⟩] = [r] ∧ r = some ⟨3, 4⟩) := by
  constructor
  · obtain ⟨r, h1, _, h3, _⟩ :=
      split_backward_sums 7 [some ⟨0, 2⟩, none, some ⟨1, 3⟩]
    obtain ⟨a, ha, hv⟩ := h3 (by decide)
    exact ⟨r, h1, a, ha, by rw [hv]; decide⟩
  · obtain ⟨r, h1, _, _, h4⟩ := split_backward_sums 9 [some ⟨3, 4⟩]
    exact ⟨r, h1, h4 _ rfl⟩

/-- C5: a non-parameterized base operation's `parameters` and `gradients`
getters return the empty tuple; the setters reject any non-empty value with
`RuntimeError` and accept the empty tuple as a no-op. -/
theorem base_parameters_empty_setter_rejects (n : FuncNode) (values : List Nat)
    (hpf : n.pf = none) (hv : values ≠ []) :
    n.parameters = [] ∧ n.gradients = [] ∧
    Function.parameters_set values = .error .runtimeError ∧
    Function.gradients_set values = .error .runtimeError ∧
    Function.parameters_set [] = .ok () ∧
    Function.gradients_set [] = .ok () := by
  refine ⟨?_, ?_, ?_, ?_, rfl, rfl⟩
  · simp [FuncNode.parameters, hpf]
  · simp [FuncNode.gradients, hpf]
  · simp [Function.parameters_set, hv]
  · simp [Function.gradients_set, hv]

/-- C5 witness: the base node with no parameterized state, at the non-empty
tuple `(5)`. -/
theorem base_parameters_empty_setter_rejects_witness :
    (⟨none, none, none, none⟩ : FuncNode).parameters = [] ∧
    (⟨none, none, none, none⟩ : FuncNode).gradients = [] ∧
    Function.parameters_set [5] = .error .runtimeError ∧
    Function.gradients_set [5] = .error .runtimeError ∧
    Function.parameters_set [] = .ok () ∧
    Function.gradients_set [] = .ok () :=
  base_parameters_empty_setter_rejects ⟨none, none, none, none⟩ [5] rfl
    (by decide)

/-- C6: both `Function.forward` and `Function.backward` choose the GPU
kernel exactly when at least one raw input of that very call resides on the
accelerator, and the CPU kernel otherwise — the routing for backward is
computed from backward's own inputs, independently of forward's. -/
theorem backend_dispatch_gpu_iff (impl : Impl) (fIns bIns : List Raw)
    (gys : List (Option Raw)) :
    (is_gpu_input fIns = true ↔ ∃ x ∈ fIns, x.isDev = true) ∧
    (is_gpu_input fIns = true → Function.forward impl fIns = impl.fwd_gpu fIns) ∧
    (is_gpu_input fIns = false → Function.forward impl fIns = impl.fwd_cpu fIns) ∧
    (is_gpu_input bIns = true →
      Function.backward impl bIns gys = impl.bwd_gpu bIns gys) ∧
    (is_gpu_input bIns = false →
      Function.backward impl bIns gys = impl.bwd_cpu bIns gys) := by
  refine ⟨?_, ?_, ?_, ?_, ?_⟩
  · simp [is_gpu_input, List.any_eq_true]
  · intro h; simp [Function.forward, h]
  · intro h; simp [Function.forward, h]
  · intro h; simp [Function.backward, h]
  · intro h; simp [Function.backward, h]

/-- C6 witness: a forward call with one device-resident input routes to the
GPU kernel; host-only calls route to the CPU kernel, for forward and
backward alike. -/
theorem backend_dispatch_gpu_iff_witness :
    Function.forward idImpl [Raw.dev 1, Raw.host 2] =
      idImpl.fwd_gpu [Raw.dev 1, Raw.host 2] ∧
    Function.forward idImpl [Raw.host 2] = idImpl.fwd_cpu [Raw.host 2] ∧
    Function.backward idImpl [Raw.dev 3] [] = idImpl.bwd_gpu [Raw.dev 3] [] ∧
    Function.backward idImpl [Raw.host 2] [] = idImpl.bwd_cpu [Raw.host 2] [] :=
  ⟨(backend_dispatch_gpu_iff idImpl [Raw.dev 1, Raw.host 2] [] []).2.1
      (by decide),
   (backend_dispatch_gpu_iff idImpl [Raw.host 2] [] []).2.2.1 (by decide),
   (backend_dispatch_gpu_iff idImpl [] [Raw.dev 3] []).2.2.2.1 (by decide),
   (backend_dispatch_gpu_iff idImpl [] [Raw.host 2] []).2.2.2.2 (by decide)⟩

/-- C9: an operation that does not override backward returns, on either
backend path, a tuple of `None` with exactly one entry per input, and a
`None` gradient contributes nothing when accumulated into a slot. -/
theorem default_backward_all_none (inputs : List Raw)
    (grad_outputs : List (Option Raw)) (slot : Option Int) :
    Function.backward defaultImpl inputs grad_outputs =
      List.replicate inputs.length none ∧
    defaultImpl.bwd_cpu inputs grad_outputs =
      List.replicate inputs.length none ∧
    defaultImpl.bwd_gpu inputs grad_outputs =
      List.replicate inputs.length none ∧
    accumGrad slot none = slot := by
  have hmap : inputs.map (fun _ => (none : Option Raw)) =
      List.replicate inputs.length none := by
    induction inputs with
    | nil => rfl
    | cons a l ih => simp [List.replicate_succ, ih]
  refine ⟨?_, hmap, hmap, rfl⟩
  by_cases h : is_gpu_input inputs <;>
    simp [Function.backward, defaultImpl, h, hmap]

/-- C10: invoking any operation with zero inputs raises `ValueError` from
the rank computation (`max()` over an empty sequence) for every possible
forward implementation, before forward could run: the heap gains no new
variable and no output list is recorded on the node. -/
theorem call_empty_inputs_value_error (impl : Impl) (pf : Option ParamFn)
    (st : St) :
    (Function.call impl pf st []).2 = .error .valueError ∧
    (Function.call impl pf st []).1.vars = st.vars ∧
    (Function.call impl pf st []).1.raws = st.raws ∧
    ((Function.call impl pf st []).1.fn st.funcs.length).inputs = some [] ∧
    ((Function.call impl pf st []).1.fn st.funcs.length).outputs = none ∧
    ((Function.call impl pf st []).1.fn st.funcs.length).rank = none := by
  have hcall : Function.call impl pf st [] =
      ((callStart pf st []).setFn st.funcs.length
        { (callStart pf st []).fn st.funcs.length with inputs := some [] },
       .error .valueError) := rfl
  have hfid : st.funcs.length < (callStart pf st []).funcs.length := by
    rw [callStart_funcsLen]
    omega
  rw [hcall]
  refine ⟨rfl, rfl, rfl, ?_, ?_, ?_⟩ <;>
    rw [setFn_fn_self _ _ _ hfid, callStart_fn_self]

/-- C2: a `Split` node's rank equals the rank of the single variable it
branches; and every operation invocation with at least one input stores
`rank = max` of its branch-resolved inputs' ranks, so every resolved
input's rank is `≤` the consuming operation's rank. -/
theorem operation_rank_is_max_of_inputs :
    (∀ st v, ((Split.init st v).1.fn (Split.init st v).2).rank =
      some (st.var v).rank) ∧
    ∀ impl pf st x xs st' res,
      Function.call impl pf st (x :: xs) = (st', res) →
      ∃ resolved r,
        (st'.fn st.funcs.length).inputs = some resolved ∧
        (st'.fn st.funcs.length).rank = some r ∧
        r = pyMax (resolved.map (fun i => (st'.var i).rank)) ∧
        ∀ i ∈ resolved, (st'.var i).rank ≤ r := by
  constructor
  · intro st v
    rw [split_init_eq]
    show ((st.funcs ++ [_]).getD st.funcs.length default).rank = _
    rw [getD_append_self]
  · intro impl pf st x xs st' res h
    set st1 := callStart pf st (x :: xs) with hst1
    set p := resolveInputs st1 (x :: xs) with hp
    set st3 := p.1.setFn st.funcs.length
        { p.1.fn st.funcs.length with inputs := some p.2 } with hst3
    set rk := pyMax (p.2.map (fun i => (st3.var i).rank)) with hrk
    set st4 := st3.setFn st.funcs.length
        { st3.fn st.funcs.length with rank := some rk } with hst4
    have hcall : Function.call impl pf st (x :: xs) =
        callFinish st.funcs.length rk st4
          (Function.forward impl (p.2.map (fun i => st4.raw (st4.var i).data))) :=
      rfl
    rw [hcall] at h
    obtain ⟨hlen, hvars, hfuncs, hraws, hmem, hpres, hspb, hcrb, hg⟩ :=
      resolveInputs_spec (x :: xs) st1
    have hfid1 : st.funcs.length < st1.funcs.length := by
      rw [hst1, callStart_funcsLen]
      omega
    have hfid3 : st.funcs.length < st3.funcs.length := by
      rw [hst3, setFn_funcsLen]
      exact lt_of_lt_of_le hfid1 hfuncs
    have hfid4 : st.funcs.length < st4.funcs.length := by
      rw [hst4, setFn_funcsLen]
      exact hfid3
    have hfn3 : st3.fn st.funcs.length =
        { p.1.fn st.funcs.length with inputs := some p.2 } := by
      rw [hst3]
      exact setFn_fn_self _ _ _ (lt_of_lt_of_le hfid1 hfuncs)
    have hfn4 : st4.fn st.funcs.length =
        { st3.fn st.funcs.length with rank := some rk } := by
      rw [hst4]
      exact setFn_fn_self _ _ _ hfid3
    have hst' : st' =
        (callFinish st.funcs.length rk st4
          (Function.forward impl
            (p.2.map (fun i => st4.raw (st4.var i).data)))).1 :=
      (congrArg Prod.fst h).symm
    have hvar : ∀ i ∈ p.2, st'.var i = st3.var i := by
      intro i hi
      have hi4 : i < st4.vars.length := (hmem i hi).2
      rw [hst']
      rw [callFinish_var_old _ _ _ _ _ hi4]
      rw [hst4]
      rfl
    refine ⟨p.2, rk, ?_, ?_, ?_, ?_⟩
    · rw [hst']
      rw [(callFinish_fn_fid st.funcs.length rk st4 _ hfid4).1, hfn4, hfn3]
    · rw [hst']
      rw [(callFinish_fn_fid st.funcs.length rk st4 _ hfid4).2.1, hfn4]
    · rw [hrk]
      congr 1
      exact (List.map_congr_left (fun i hi => by rw [hvar i hi])).symm
    · intro i hi
      rw [hvar i hi, hrk]
      exact mem_le_pyMax _ _ (List.mem_map_of_mem _ hi)

/-- C2 witness: a single-leaf call — the node's rank is `0`, the maximum of
its one resolved input's rank. -/
theorem operation_rank_is_max_of_inputs_witness :
    ∃ resolved r,
      (((Function.call idImpl none ((mkLeaf ⟨[], [], []⟩ (Raw.host 2)).1)
          [0]).1).fn 0).inputs = some resolved ∧
      (((Function.call idImpl none ((mkLeaf ⟨[], [], []⟩ (Raw.host 2)).1)
          [0]).1).fn 0).rank = some r ∧
      r = pyMax (resolved.map (fun i =>
        (((Function.call idImpl none ((mkLeaf ⟨[], [], []⟩ (Raw.host 2)).1)
          [0]).1).var i).rank)) ∧
      ∀ i ∈ resolved,
        (((Function.call idImpl none ((mkLeaf ⟨[], [], []⟩ (Raw.host 2)).1)
          [0]).1).var i).rank ≤ r :=
  operation_rank_is_max_of_inputs.2 idImpl none
    ((mkLeaf ⟨[], [], []⟩ (Raw.host 2)).1) 0 [] _ _ rfl

/-- C8: invoking an operation that kept the abstract forward contracts
raises `NotImplementedError`; the failure happens before any output is
created — the node records no output list and no variable in the final heap
names this node as its producer. -/
theorem unimplemented_forward_raises (st : St) (x : Nat) (xs : List Nat)
    (st' : St) (res : Except Err (Nat × List Nat))
    (hwf : WF st)
    (h : Function.call defaultImpl none st (x :: xs) = (st', res)) :
    res = .error .notImplemented ∧
    (st'.fn st.funcs.length).outputs = none ∧
    ∀ v, (st'.var v).creator ≠ some st.funcs.length := by
  set st1 := callStart none st (x :: xs) with hst1
  set p := resolveInputs st1 (x :: xs) with hp
  set st3 := p.1.setFn st.funcs.length
      { p.1.fn st.funcs.length with inputs := some p.2 } with hst3
  set rk := pyMax (p.2.map (fun i => (st3.var i).rank)) with hrk
  set st4 := st3.setFn st.funcs.length
      { st3.fn st.funcs.length with rank := some rk } with hst4
  have hcall : Function.call defaultImpl none st (x :: xs) =
      callFinish st.funcs.length rk st4
        (Function.forward defaultImpl
          (p.2.map (fun i => st4.raw (st4.var i).data))) :=
    rfl
  rw [hcall] at h
  have hfwd : Function.forward defaultImpl
      (p.2.map (fun i => st4.raw (st4.var i).data)) =
      .error .notImplemented := by
    simp [Function.forward, defaultImpl]
  rw [hfwd] at h
  have herr : callFinish st.funcs.length rk st4
      (.error .notImplemented) = (st4, .error .notImplemented) := rfl
  rw [herr] at h
  obtain ⟨h1, h2⟩ := Prod.mk.injEq .. ▸ h
  obtain ⟨hlen, hvars, hfuncs, hraws, hmem, hpres, hspb, hcrb, hg⟩ :=
    resolveInputs_spec (x :: xs) st1
  have hfid1 : st.funcs.length < st1.funcs.length := by
    rw [hst1, callStart_funcsLen]
    omega
  have hsa1 : SplitAvoid st.funcs.length st1 :=
    splitAvoid_of_spb st st.funcs.length (le_refl _) hwf.1
  have hca1 : CreatorAvoid st.funcs.length st1 :=
    creatorAvoid_of_crb st st.funcs.length (le_refl _) hwf.2
  obtain ⟨hsaP, hfnP, hcaP⟩ := hg st.funcs.length hfid1 hsa1
  have hfid3 : st.funcs.length < st3.funcs.length := by
    rw [hst3, setFn_funcsLen]
    exact lt_of_lt_of_le hfid1 hfuncs
  refine ⟨h2.symm, ?_, ?_⟩
  · rw [← h1]
    have hfn3 : st3.fn st.funcs.length =
        { p.1.fn st.funcs.length with inputs := some p.2 } := by
      rw [hst3]
      exact setFn_fn_self _ _ _ (lt_of_lt_of_le hfid1 hfuncs)
    have hfn4 : st4.fn st.funcs.length =
        { st3.fn st.funcs.length with rank := some rk } := by
      rw [hst4]
      exact setFn_fn_self _ _ _ hfid3
    rw [hfn4, hfn3]
    show (p.1.fn st.funcs.length).outputs = none
    rw [hp, hfnP, hst1, callStart_fn_self]
  · intro v
    rw [← h1]
    show (p.1.var v).creator ≠ some st.funcs.length
    exact hcaP hca1 v

/-- C8 witness: calling an operation with the default (abstract) forward on
one leaf input raises `NotImplementedError`, leaves `outputs` as `None` and
leaves no variable pointing at the node as producer. -/
theorem unimplemented_forward_raises_witness :
    (Function.call defaultImpl none ((mkLeaf ⟨[], [], []⟩ (Raw.host 2)).1)
        [0]).2 = .error .notImplemented ∧
    (((Function.call defaultImpl none ((mkLeaf ⟨[], [], []⟩ (Raw.host 2)).1)
        [0]).1).fn 0).outputs = none ∧
    ∀ v, (((Function.call defaultImpl none
        ((mkLeaf ⟨[], [], []⟩ (Raw.host 2)).1) [0]).1).var v).creator ≠
      some 0 :=
  unimplemented_forward_raises ((mkLeaf ⟨[], [], []⟩ (Raw.host 2)).1) 0 [] _ _
    (wf_of_no_links _ (by decide)) rfl

/-- C7: after `forget()` on a node, every former output variable's producer
link is `None`, every former input variable's branch link is `None`, the
node's own input and output references are dropped, and no raw tensor value
(nor any variable's wrapped value or rank) is deleted or modified. -/
theorem forget_clears_links (st : St) (fid : Nat) (xs ys : List Nat)
    (hfid : fid < st.funcs.length)
    (hin : (st.fn fid).inputs = some xs)
    (hout : (st.fn fid).outputs = some ys) :
    (∀ y ∈ ys, ((Function.forget st fid).var y).creator = none) ∧
    (∀ x ∈ xs, ((Function.forget st fid).var x).splitter = none) ∧
    ((Function.forget st fid).fn fid).inputs = none ∧
    ((Function.forget st fid).fn fid).outputs = none ∧
    (Function.forget st fid).raws = st.raws ∧
    (∀ v, ((Function.forget st fid).var v).data = (st.var v).data) ∧
    (∀ v, ((Function.forget st fid).var v).rank = (st.var v).rank) := by
  have heq : Function.forget st fid =
      (xs.foldl (fun st x => st.setVar x { st.var x with splitter := none })
        (ys.foldl (fun st y => st.setVar y { st.var y with creator := none })
          st)).setFn fid
        { (xs.foldl
            (fun st x => st.setVar x { st.var x with splitter := none })
            (ys.foldl
              (fun st y => st.setVar y { st.var y with creator := none })
              st)).fn fid
          with inputs := none, outputs := none } := by
    unfold Function.forget
    simp only [hout, hin, Option.getD_some]
  rw [heq]
  obtain ⟨araws, afuncs, afields, amem, anot⟩ := clear_creator_fold ys st
  obtain ⟨braws, bfuncs, bfields, bmem, bnot⟩ := clear_splitter_fold xs
    (ys.foldl (fun st y => st.setVar y { st.var y with creator := none }) st)
  have hfid2 : fid <
      (xs.foldl (fun st x => st.setVar x { st.var x with splitter := none })
        (ys.foldl (fun st y => st.setVar y { st.var y with creator := none })
          st)).funcs.length := by
    rw [bfuncs, afuncs]
    exact hfid
  refine ⟨?_, ?_, ?_, ?_, ?_, ?_, ?_⟩
  · intro y hy
    rw [setFn_var, (bfields y).2.2]
    exact amem y hy
  · intro x hx
    rw [setFn_var]
    exact bmem x hx
  · rw [setFn_fn_self _ _ _ hfid2]
  · rw [setFn_fn_self _ _ _ hfid2]
  · rw [setFn_raws, braws, araws]
  · intro v
    rw [setFn_var, (bfields v).1, (afields v).1]
  · intro v
    rw [setFn_var, (bfields v).2.1, (afields v).2.1]

/-- C7 witness: a two-variable graph whose single operation node consumes
variable `0` and produced variable `1`; `forget` clears both links, drops
the node's references and leaves the raw store untouched. -/
theorem forget_clears_links_witness :
    (∀ y ∈ [1],
      ((Function.forget ⟨[Raw.host 4],
        [⟨0, 0, none, some 0⟩, ⟨0, 0, some 0, none⟩],
        [⟨some [0], some [1], some 0, none⟩]⟩ 0).var y).creator = none) ∧
    (∀ x ∈ [0],
      ((Function.forget ⟨[Raw.host 4],
        [⟨0, 0, none, some 0⟩, ⟨0, 0, some 0, none⟩],
        [⟨some [0], some [1], some 0, none⟩]⟩ 0).var x).splitter = none) ∧
    ((Function.forget ⟨[Raw.host 4],
        [⟨0, 0, none, some 0⟩, ⟨0, 0, some 0, none⟩],
        [⟨some [0], some [1], some 0, none⟩]⟩ 0).fn 0).inputs = none ∧
    ((Function.forget ⟨[Raw.host 4],
        [⟨0, 0, none, some 0⟩, ⟨0, 0, some 0, none⟩],
        [⟨some [0], some [1], some 0, none⟩]⟩ 0).fn 0).outputs = none ∧
    (Function.forget ⟨[Raw.host 4],
        [⟨0, 0, none, some 0⟩, ⟨0, 0, some 0, none⟩],
        [⟨some [0], some [1], some 0, none⟩]⟩ 0).raws = [Raw.host 4] ∧
    (∀ v, ((Function.forget ⟨[Raw.host 4],
        [⟨0, 0, none, some 0⟩, ⟨0, 0, some 0, none⟩],
        [⟨some [0], some [1], some 0, none⟩]⟩ 0).var v).data =
      ((⟨[Raw.host 4],
        [⟨0, 0, none, some 0⟩, ⟨0, 0, some 0, none⟩],
        [⟨some [0], some [1], some 0, none⟩]⟩ : St).var v).data) ∧
    (∀ v, ((Function.forget ⟨[Raw.host 4],
        [⟨0, 0, none, some 0⟩, ⟨0, 0, some 0, none⟩],
        [⟨some [0], some [1], some 0, none⟩]⟩ 0).var v).rank =
      ((⟨[Raw.host 4],
        [⟨0, 0, none, some 0⟩, ⟨0, 0, some 0, none⟩],
        [⟨some [0], some [1], some 0, none⟩]⟩ : St).var v).rank) :=
  forget_clears_links
    ⟨[Raw.host 4], [⟨0, 0, none, some 0⟩, ⟨0, 0, some 0, none⟩],
     [⟨some [0], some [1], some 0, none⟩]⟩ 0 [0] [1] (by decide) rfl rfl

/-- C3 counterexample: the claim places the creation of a DataNode's
BranchNode at its *second* consumption, but already after the very first
consumption of a fresh leaf variable the code has created its `Split`
(`x.splitter` is set, with one derived branch output recorded). -/
theorem branch_created_on_first_consumption_cex :
    ((mkLeaf ⟨[], [], []⟩ (Raw.host 2)).1.var 0).splitter = none ∧
    ((Function.call idImpl none (mkLeaf ⟨[], [], []⟩ (Raw.host 2)).1
        [0]).1.var 0).splitter = some 1 ∧
    ((Function.call idImpl none (mkLeaf ⟨[], [], []⟩ (Raw.host 2)).1
        [0]).1.fn 1).inputs = some [0] ∧
    ((Function.call idImpl none (mkLeaf ⟨[], [], []⟩ (Raw.host 2)).1
        [0]).1.fn 1).outputs = some [1] := by
  refine ⟨rfl, ?_, ?_, ?_⟩ <;> decide

/-- C3 (amended): a DataNode's BranchNode is created lazily, exactly once,
at the moment of the DataNode's *first* consumption by an operation; every
consumption (the first included) appends exactly one derived output
DataNode to it, and the derived DataNode shares (is the same object as) the
original's raw value. -/
theorem branch_lazy_first_consumption (st : St) (x sid : Nat)
    (outs : List Nat) :
    ((st.var x).splitter = none → x < st.vars.length →
      ((resolveOne st x).1.var x).splitter = some st.funcs.length ∧
      (resolveOne st x).1.fn st.funcs.length =
        ⟨some [x], some [(resolveOne st x).2], some (st.var x).rank, none⟩ ∧
      ((resolveOne st x).1.var (resolveOne st x).2).data = (st.var x).data) ∧
    ((st.var x).splitter = some sid → x < st.vars.length →
      sid < st.funcs.length →
      (st.fn sid).inputs = some [x] → (st.fn sid).outputs = some outs →
      ((resolveOne st x).1.var x).splitter = some sid ∧
      ((resolveOne st x).1.fn sid).outputs =
        some (outs ++ [(resolveOne st x).2]) ∧
      ((resolveOne st x).1.var (resolveOne st x).2).data =
        (st.var x).data) := by
  constructor
  · intro h hx
    have e1 := resolveOne_eq_none' st x h
    have hvL : (splitFresh st x).vars.length = st.vars.length :=
      splitFresh_varsLen st x
    refine ⟨?_, ?_, ?_⟩
    · rw [e1, add_branch_var_lt _ _ x (by rw [hvL]; exact hx),
        splitFresh_var_self st x hx]
    · rw [e1, add_branch_out,
        add_branch_fn_self _ _ (by rw [splitFresh_funcsLen]; omega),
        splitFresh_fn_new, hvL]
      rfl
    · rw [e1, add_branch_out, add_branch_var_new]
      show ((splitFresh st x).var
        ((((splitFresh st x).fn st.funcs.length).inputs.getD []).headD 0)).data
          = (st.var x).data
      rw [splitFresh_fn_new]
      show ((splitFresh st x).var x).data = (st.var x).data
      rw [splitFresh_var_self st x hx]
  · intro h hx hsid hin hout2
    have e1 := resolveOne_eq_some st x sid h
    refine ⟨?_, ?_, ?_⟩
    · rw [e1, add_branch_var_lt _ _ x hx]
      exact h
    · rw [e1, add_branch_out, add_branch_fn_self st sid hsid, hout2]
      rfl
    · rw [e1, add_branch_out, add_branch_var_new st sid, hin]
      rfl

/-- C3 witness: a fresh leaf gains its split (with one branch) at the first
consumption; consuming it again through the existing split appends exactly
one more branch output, sharing the raw value in both cases. -/
theorem branch_lazy_first_consumption_witness :
    (((resolveOne (mkLeaf ⟨[], [], []⟩ (Raw.host 2)).1 0).1.var 0).splitter =
        some 0 ∧
      (resolveOne (mkLeaf ⟨[], [], []⟩ (Raw.host 2)).1 0).1.fn 0 =
        ⟨some [0], some [(resolveOne (mkLeaf ⟨[], [], []⟩ (Raw.host 2)).1
          0).2], some 0, none⟩ ∧
      ((resolveOne (mkLeaf ⟨[], [], []⟩ (Raw.host 2)).1 0).1.var
        (resolveOne (mkLeaf ⟨[], [], []⟩ (Raw.host 2)).1 0).2).data =
        ((mkLeaf ⟨[], [], []⟩ (Raw.host 2)).1.var 0).data) ∧
    (((resolveOne (Function.call idImpl none
        (mkLeaf ⟨[], [], []⟩ (Raw.host 2)).1 [0]).1 0).1.var 0).splitter =
        some 1 ∧
      ((resolveOne (Function.call idImpl none
        (mkLeaf ⟨[], [], []⟩ (Raw.host 2)).1 [0]).1 0).1.fn 1).outputs =
        some ([1] ++ [(resolveOne (Function.call idImpl none
          (mkLeaf ⟨[], [], []⟩ (Raw.host 2)).1 [0]).1 0).2]) ∧
      ((resolveOne (Function.call idImpl none
        (mkLeaf ⟨[], [], []⟩ (Raw.host 2)).1 [0]).1 0).1.var
        (resolveOne (Function.call idImpl none
          (mkLeaf ⟨[], [], []⟩ (Raw.host 2)).1 [0]).1 0).2).data =
        ((Function.call idImpl none
          (mkLeaf ⟨[], [], []⟩ (Raw.host 2)).1 [0]).1.var 0).data) :=
  ⟨(branch_lazy_first_consumption (mkLeaf ⟨[], [], []⟩ (Raw.host 2)).1 0 0
      []).1 rfl (by decide),
   (branch_lazy_first_consumption (Function.call idImpl none
      (mkLeaf ⟨[], [], []⟩ (Raw.host 2)).1 [0]).1 0 1 [1]).2 (by decide)
      (by decide) (by decide) (by decide) (by decide)⟩

/-- C4: two invocations of one `ParameterizedFunction` instance each run the
base call on a fresh shallow copy, producing two distinct graph nodes with
disjoint input and output variables and their own rank state, while the
`parameters` and `gradients` accessors of both call copies return the very
same shared references, in declared field-name order. -/
theorem parameterized_call_shares_parameters (impl : Impl) (f : ParamFn)
    (st st1 st2 : St) (xs ys : List Nat) (fid1 fid2 : Nat)
    (outs1 outs2 : List Nat)
    (hwf : WF st)
    (h1 : ParameterizedFunction.call impl f st xs = (st1, .ok (fid1, outs1)))
    (h2 : ParameterizedFunction.call impl f st1 ys = (st2, .ok (fid2, outs2))) :
    fid1 ≠ fid2 ∧
    (st2.fn fid1).pf = some (copyShallow f) ∧
    (st2.fn fid2).pf = some (copyShallow f) ∧
    (st2.fn fid1).parameters = f.parameters ∧
    (st2.fn fid2).parameters = f.parameters ∧
    (st2.fn fid1).gradients = f.gradients ∧
    (st2.fn fid2).gradients = f.gradients ∧
    (st2.fn fid1).outputs = some outs1 ∧
    (st2.fn fid2).outputs = some outs2 ∧
    (∀ o ∈ outs1, o ∉ outs2) ∧
    (∃ r1 r2, (st2.fn fid1).inputs = some r1 ∧
      (st2.fn fid2).inputs = some r2 ∧ ∀ i ∈ r1, i ∉ r2) := by
  obtain ⟨hfid1, hwf1, hflt1, hvle1, hpf1, houts1, hob1, ⟨r1, hr1, hrb1⟩,
    hsa1⟩ := call_ok_spec impl (some (copyShallow f)) st xs st1 fid1 outs1
      hwf h1
  subst hfid1
  obtain ⟨hfid2, hwf2, hflt2, hvle2, hpf2, houts2, hob2, ⟨r2, hr2, hrb2⟩,
    hsa2⟩ := call_ok_spec impl (some (copyShallow f)) st1 ys st2 fid2 outs2
      hwf1 h2
  subst hfid2
  obtain ⟨hfrz, hsaF⟩ := call_preserves impl (some (copyShallow f)) st1 ys
    st2 (.ok (st1.funcs.length, outs2)) st.funcs.length hflt1 hsa1 h2
  have hpfA : (st2.fn st.funcs.length).pf = some (copyShallow f) := by
    rw [hfrz]
    exact hpf1
  refine ⟨Nat.ne_of_lt hflt1, hpfA, hpf2, ?_, ?_, ?_, ?_, ?_, houts2, ?_, ?_⟩
  · simp only [FuncNode.parameters, hpfA]
    rfl
  · simp only [FuncNode.parameters, hpf2]
    rfl
  · simp only [FuncNode.gradients, hpfA]
    rfl
  · simp only [FuncNode.gradients, hpf2]
    rfl
  · rw [hfrz]
    exact houts1
  · intro o ho1 ho2
    have hb1 := (hob1 o ho1).2
    have hb2 := (hob2 o ho2).1
    omega
  · refine ⟨r1, r2, ?_, hr2, ?_⟩
    · rw [hfrz]
      exact hr1
    · intro i hi1 hi2
      have hb1 := (hrb1 i hi1).2
      have hb2 := (hrb2 i hi2).1
      omega

/-- C4 witness: the same parameterized instance (one parameter reference
`10`, one gradient reference `20`) invoked twice on the same leaf — the two
call nodes are distinct, yet both report the shared parameter and gradient
references. -/
theorem parameterized_call_shares_parameters_witness :
    (0 : Nat) ≠ 2 ∧
    ((ParameterizedFunction.call idImpl ⟨[0], [1], [(0, 10), (1, 20)]⟩
        (ParameterizedFunction.call idImpl ⟨[0], [1], [(0, 10), (1, 20)]⟩
          (mkLeaf ⟨[], [], []⟩ (Raw.host 2)).1 [0]).1 [0]).1.fn
        0).parameters =
      (⟨[0], [1], [(0, 10), (1, 20)]⟩ : ParamFn).parameters ∧
    ((ParameterizedFunction.call idImpl ⟨[0], [1], [(0, 10), (1, 20)]⟩
        (ParameterizedFunction.call idImpl ⟨[0], [1], [(0, 10), (1, 20)]⟩
          (mkLeaf ⟨[], [], []⟩ (Raw.host 2)).1 [0]).1 [0]).1.fn
        2).parameters =
      (⟨[0], [1], [(0, 10), (1, 20)]⟩ : ParamFn).parameters ∧
    ((ParameterizedFunction.call idImpl ⟨[0], [1], [(0, 10), (1, 20)]⟩
        (ParameterizedFunction.call idImpl ⟨[0], [1], [(0, 10), (1, 20)]⟩
          (mkLeaf ⟨[], [], []⟩ (Raw.host 2)).1 [0]).1 [0]).1.fn
        0).gradients =
      (⟨[0], [1], [(0, 10), (1, 20)]⟩ : ParamFn).gradients := by
  obtain ⟨hne, hpf1, hpf2, hp1, hp2, hg1, hg2, ho1, ho2, hdisj, hr⟩ :=
    parameterized_call_shares_parameters idImpl
      ⟨[0], [1], [(0, 10), (1, 20)]⟩ (mkLeaf ⟨[], [], []⟩ (Raw.host 2)).1
      _ _ [0] [0] _ _ _ _ (wf_of_no_links _ (by decide)) rfl rfl
  exact ⟨hne, hp1, hp2, hg1⟩

end Chain
